import Mathlib

/-!
Shallow embedding of `src/language-server/diagnostics.ts` from the
googlearchive/tools repository (the `DiagnosticGenerator` class of the
polymer editor service), together with proofs about its behaviour.

Modelling conventions:
* JS `Set<string>` values (insertion-ordered, duplicate-free) are modelled
  as `List String` kept duplicate-free by construction; `Set.delete` is a
  filter and `new Set(iterable)` is an order-preserving dedup fold.
* JS `Map<string, Diagnostic[]>` values are modelled as insertion-ordered
  association lists `List (String × List Diagnostic)`.
* Calls into external collaborators (the converter of the analyzer, the linter,
  `applyEdits`, the rule registry) are either taken as explicit function
  parameters or modelled from the description of their interface in the spec;
  such definitions carry a `Modelled from the spec:` doc comment.
* Async functions that can reject are modelled with `Except LintError`.
-/

namespace PolymerIde

/-- A zero-based line/column position (polymer-analyzer `Position`). -/
structure Position where
  line : Nat
  column : Nat
deriving DecidableEq, Repr

/-- A source range: file identifier plus start/end positions
(polymer-analyzer `SourceRange`). -/
structure SourceRange where
  file : String
  start : Position
  «end» : Position
deriving DecidableEq, Repr

/-- One text replacement of an `Edit` (polymer-analyzer `Replacement`). -/
structure Replacement where
  range : SourceRange
  replacementText : String
deriving DecidableEq, Repr

/-- An `Edit` is a sequence of replacements, possibly spanning files. -/
abbrev Edit := List Replacement

/-- A non-fix action of a warning (polymer-analyzer `Action`); only actions
of kind `"edit"` carry an applicable edit. -/
structure Action where
  kind : String
  description : String
  edit : Edit
deriving DecidableEq, Repr

/-- A lint warning (polymer-analyzer `Warning`): stable code, source range,
optional fix, optional action list (`undefined` is `none`). -/
structure Warning where
  code : String
  sourceRange : SourceRange
  fix : Option Edit
  actions : Option (List Action)
deriving DecidableEq, Repr

/-- A protocol-level diagnostic. Modelled from the spec: diagnostics are
"derived 1:1 from Warnings grouped by file" by the external converter. -/
structure Diagnostic where
  code : String
  range : SourceRange
deriving DecidableEq, Repr

/-- Modelled from the spec: `converter.convertWarningToDiagnostic`, the
external 1:1 rendering of a warning as a protocol diagnostic. -/
def convertWarningToDiagnostic (w : Warning) : Diagnostic :=
  { code := w.code, range := w.sourceRange }

/-- An LSP range (no file component). -/
structure LRange where
  start : Position
  «end» : Position
deriving DecidableEq, Repr

/-- An LSP text edit (`vscode-languageserver` `TextEdit`). -/
structure TextEdit where
  range : LRange
  newText : String
deriving DecidableEq, Repr

/-- An editor command (`vscode-languageserver` `Command`): title, command
identifier, and the workspace-edit payload. -/
structure Command where
  title : String
  command : String
  edit : Edit
deriving DecidableEq, Repr

/-- An error thrown by the external lint/analysis engine. -/
inductive LintError where
  | engineFailure (message : String) : LintError
deriving DecidableEq, Repr

/-- Modelled from the spec: `converter.convertPRangeToL`, dropping the file
component of an analyzer range. -/
def convertPRangeToL (r : SourceRange) : LRange :=
  { start := r.start, «end» := r.«end» }

/-- Modelled from the spec: `converter.convertLRangeToP`, attaching the
identifier of the requested document to an LSP range. -/
def convertLRangeToP (r : LRange) (textDocument : String) : SourceRange :=
  { file := textDocument, start := r.start, «end» := r.«end» }

/-- JS `Set.add`: append iff not already present (insertion order kept). -/
def jsSetAdd (s : List String) (x : String) : List String :=
  if x ∈ s then s else s ++ [x]

/-- JS `new Set(iterable)`: order-preserving dedup. -/
def jsSetOf (l : List String) : List String :=
  l.foldl jsSetAdd []

/-- JS `Set.delete`: remove the element (a duplicate-free list has at most
one occurrence, so a filter is exact). -/
def setDelete (s : List String) (x : String) : List String :=
  s.filter (fun v => v ≠ x)

/-- One step of building `diagnosticsByUri`: fetch the entry for `uri`
(`Map.get` / default `[]`), push `d`, and store it back (`Map.set`),
keeping first-insertion order like a JS `Map`. -/
def addToBatch (m : List (String × List Diagnostic)) (uri : String)
    (d : Diagnostic) : List (String × List Diagnostic) :=
  match m with
  | [] => [(uri, [d])]
  | (k, ds) :: rest =>
    if k = uri then (k, ds ++ [d]) :: rest
    else (k, ds) :: addToBatch rest uri d

/-- The URIs of the files carrying the given warnings, in warning order
(the `sourceRange.file` of each warning put through `getUriForLocalPath`). -/
def cycleUris (conv : String → String) (ws : List Warning) : List String :=
  ws.map (fun w => conv w.sourceRange.file)

/-- The warning loop of `reportWarnings` (open-documents mode) and
`reportPackageWarnings`: group converted diagnostics by URI into a
`Map`-like association list. -/
def buildBatches (conv : String → String) :
    List Warning → List (String × List Diagnostic) →
      List (String × List Diagnostic)
  | [], m => m
  | w :: ws, m =>
    buildBatches conv ws
      (addToBatch m (conv w.sourceRange.file) (convertWarningToDiagnostic w))

/-- Map `diagnosticsByUri` as built by the open-documents branch of
`reportWarnings` (lines 145-156 of diagnostics.ts). -/
def diagnosticsByUri (conv : String → String) (ws : List Warning) :
    List (String × List Diagnostic) :=
  buildBatches conv ws []

/-- The warning loop of `reportPackageWarnings` (lines 176-186): per
warning, delete its URI from `reportedLastTime` and add its diagnostic to
`diagnosticsByUri`.  (The loop also adds each URI to the intermediate
`this.urisReportedWarningsFor` set built at line 174, but that set is
overwritten by the final assignment at line 194 before the function — which
has no suspension point — returns, so it is never observable and is elided
here.) -/
def packageLoop (conv : String → String) :
    List Warning → List String → List (String × List Diagnostic) →
      List String × List (String × List Diagnostic)
  | [], r, m => (r, m)
  | w :: ws, r, m =>
    packageLoop conv ws (setDelete r (conv w.sourceRange.file))
      (addToBatch m (conv w.sourceRange.file) (convertWarningToDiagnostic w))

/-- The outcome of a whole-package reporting cycle: the ordered list of
`sendDiagnostics` publishes (URI, diagnostics array) and the new
`urisReportedWarningsFor` set. -/
structure PackageCycleResult where
  publishes : List (String × List Diagnostic)
  newState : List String
deriving DecidableEq, Repr

/-- Function `reportPackageWarnings` (diagnostics.ts lines 172-195): diff the
freshly grouped warnings against the previous `urisReportedWarningsFor`
(`state`), publish each non-empty batch, publish an empty batch for every
URI reported last time but absent now, and replace the state with the keys
of the new batches. -/
def reportPackageWarnings (conv : String → String) (state : List String)
    (warnings : List Warning) : PackageCycleResult :=
  let p := packageLoop conv warnings state []
  { publishes := p.2 ++ p.1.map (fun uri => (uri, ([] : List Diagnostic))),
    newState := p.2.map Prod.fst }

/-- Function `reportWarnings` (diagnostics.ts lines 138-162).  `lintPackage` is the
(already suspended-on) result of `this.linter.lintPackage()`; `lint` is
`this.linter.lint`; `toPath` is `converter.getWorkspacePathToFile`;
`openDocs` is `this.documents.keys()`.  Returns the publishes and the new
`urisReportedWarningsFor`; a linter rejection propagates as `.error` and
the state field is never assigned on that path. -/
def reportWarnings (conv toPath : String → String)
    (lintPackage : Except LintError (List Warning))
    (lint : List String → Except LintError (List Warning))
    (analyzeWholePackage : Bool) (openDocs : List String)
    (state : List String) :
    Except LintError (List (String × List Diagnostic) × List String) :=
  if analyzeWholePackage then
    match lintPackage with
    | .error e => .error e
    | .ok warnings =>
      let r := reportPackageWarnings conv state warnings
      .ok (r.publishes, r.newState)
  else
    match lint (openDocs.map toPath) with
    | .error e => .error e
    | .ok warnings => .ok (diagnosticsByUri conv warnings, state)

/-- The value of `this.urisReportedWarningsFor` after a `reportWarnings`
call: assigned only inside `reportPackageWarnings`, so a cycle that rejects
leaves the field as it was. -/
def stateAfterReportWarnings (conv toPath : String → String)
    (lintPackage : Except LintError (List Warning))
    (lint : List String → Except LintError (List Warning))
    (analyzeWholePackage : Bool) (openDocs : List String)
    (state : List String) : List String :=
  match reportWarnings conv toPath lintPackage lint analyzeWholePackage
      openDocs state with
  | .error _ => state
  | .ok (_, s) => s

/-- The number of empty-diagnostics publishes ("clears") for `uri` in a
publish list. -/
def clearCount (ps : List (String × List Diagnostic)) (uri : String) : Nat :=
  ps.countP (fun p => p.1 == uri && p.2.isEmpty)

/-- The `onDidCloseTextDocument` handler (diagnostics.ts lines 35-43):
publishes one clear for the closed document iff not in whole-package
mode. -/
def onDidCloseTextDocument (analyzeWholePackage : Bool) (uri : String) :
    List (String × List Diagnostic) :=
  if !analyzeWholePackage then [(uri, ([] : List Diagnostic))] else []

/-- The `settings.changeStream` handler (diagnostics.ts lines 51-65).
When `analyzeWholePackage` toggles: switching in replaces
`urisReportedWarningsFor` with the set of open document URIs; switching out
publishes a clear for every URI in it (without changing it); then
`reportWarnings()` runs under the new setting.  Returns the immediate
publishes prepended to the publishes of the cycle, with the state after. -/
def onAnalyzeWholePackageToggle (conv toPath : String → String)
    (lintPackage : Except LintError (List Warning))
    (lint : List String → Except LintError (List Warning))
    (openDocs : List String) (older newer : Bool) (state : List String) :
    Except LintError (List (String × List Diagnostic) × List String) :=
  if newer = older then .ok ([], state)
  else
    let immediate :=
      if newer then ([] : List (String × List Diagnostic))
      else state.map (fun uri => (uri, ([] : List Diagnostic)))
    let state1 := if newer then jsSetOf openDocs else state
    match reportWarnings conv toPath lintPackage lint newer openDocs
        state1 with
    | .error e => .error e
    | .ok (ps, s2) => .ok (immediate ++ ps, s2)

/-- Lexicographic "at or before" on positions (line, then column). -/
def posLe (a b : Position) : Bool :=
  decide (a.line < b.line ∨ (a.line = b.line ∧ a.column ≤ b.column))

/-- Lexicographic "strictly before" on positions. -/
def posLt (a b : Position) : Bool :=
  decide (a.line < b.line ∨ (a.line = b.line ∧ a.column < b.column))

/-- Modelled from the spec: the polymer-analyzer predicate `isPositionInsideRange`
with `includeEdges = true` as called at lines 239-240: the position lies
within the range, boundaries included. -/
def isPositionInsideRange (p : Position) (r : SourceRange) : Bool :=
  posLe r.start p && posLe p r.«end»

/-- Predicate `isRangeInside` (diagnostics.ts lines 238-241): both endpoints of
`inner` lie inclusively inside `outer`. -/
def isRangeInside (inner outer : SourceRange) : Bool :=
  isPositionInsideRange inner.start outer &&
    isPositionInsideRange inner.«end» outer

/-- Modelled from the spec: the command identifier from `./commands` under
which edit-applying commands are registered (its exact text is immaterial
here). -/
def applyEditCommandName : String := "polymer-ide/applyEdit"

/-- Modelled from the spec: `converter.editToWorkspaceEdit` serialises the
edit as the command payload. -/
def createApplyEditCommand (title : String) (edit : Edit) : Command :=
  { title := title, command := applyEditCommandName, edit := edit }

/-- The body of the warning loop of `getCodeActions` (diagnostics.ts lines
208-228): skip a warning with neither fix nor actions, or whose range is
not inside the requested range; otherwise emit the quick-fix command (if a
fix exists) followed by one command per action of kind `"edit"`, titled by
the first line of its description. -/
def warningCommands (w : Warning) (requestedRange : SourceRange) :
    List Command :=
  if (w.fix.isNone && (w.actions.getD []).isEmpty)
      || !isRangeInside w.sourceRange requestedRange then []
  else
    (match w.fix with
     | some f =>
       [createApplyEditCommand
          ("Quick fix the \x27" ++ w.code ++ "\x27 warning") f]
     | none => []) ++
    (w.actions.getD []).filterMap (fun a =>
      if a.kind = "edit" then
        some (createApplyEditCommand
          ((a.description.splitOn "\n").headD "") a.edit)
      else none)

/-- The `context` of a code-action request. -/
structure CodeActionContext where
  diagnostics : List Diagnostic
deriving DecidableEq, Repr

/-- A code-action request (`CodeActionParams`): document URI, requested
LSP range, context. -/
structure CodeActionParams where
  textDocument : String
  range : LRange
  context : CodeActionContext
deriving DecidableEq, Repr

/-- Function `getCodeActions` (diagnostics.ts lines 197-230): early-exit on an
empty diagnostics context, otherwise lint just the requested file and
collect the commands of the qualifying warnings in warning order. -/
def getCodeActions (toPath : String → String)
    (lint : List String → Except LintError (List Warning))
    (req : CodeActionParams) : Except LintError (List Command) :=
  if req.context.diagnostics.length = 0 then .ok []
  else
    match lint [toPath req.textDocument] with
    | .error e => .error e
    | .ok warnings =>
      let requestedRange := convertLRangeToP req.range req.textDocument
      .ok (warnings.foldl
        (fun cmds w => cmds ++ warningCommands w requestedRange) [])

/-- Two source ranges overlap: same file and neither ends at or before the
start of the other. -/
def rangesOverlap (a b : SourceRange) : Bool :=
  a.file == b.file && posLt a.start b.«end» && posLt b.start a.«end»

/-- An edit conflicts with already-applied edits if any of its replacement
ranges overlaps any applied replacement range. -/
def editConflicts (applied : List Edit) (e : Edit) : Bool :=
  applied.any (fun a =>
    a.any (fun ra => e.any (fun re => rangesOverlap ra.range re.range)))

/-- Modelled from the spec: the polymer-analyzer operation `applyEdits` "performs the
actual text mutation and conflict exclusion": edits are considered in
order and an edit overlapping an already-applied one is dropped; the
applied edits are returned. -/
def applyEdits (edits : List Edit) : List Edit :=
  edits.foldl (fun acc e => if editConflicts acc e then acc else acc ++ [e])
    []

/-- The fix-collecting loop of `getFixesForFile` (diagnostics.ts lines
91-102): keep the fix of a warning only if it exists and touches no file other
than the requested one. -/
def fixesForFileEdits (path : String) (warnings : List Warning) :
    List Edit :=
  warnings.filterMap (fun w =>
    w.fix.bind (fun f =>
      if f.any (fun repl => repl.range.file != path) then none
      else some f))

/-- Function `getFixesForFile` (diagnostics.ts lines 88-114): lint the single file,
collect its fully-in-file fixes, apply them with conflict exclusion, and
flatten the replacements of the applied edits into LSP text edits. -/
def getFixesForFile (toPath : String → String)
    (lint : List String → Except LintError (List Warning)) (uri : String) :
    Except LintError (List TextEdit) :=
  match lint [toPath uri] with
  | .error e => .error e
  | .ok warnings =>
    let edits := fixesForFileEdits (toPath uri) warnings
    let appliedEdits := applyEdits edits
    .ok (appliedEdits.foldl
      (fun acc e =>
        acc ++ e.map (fun repl =>
          { range := convertPRangeToL repl.range,
            newText := repl.replacementText }))
      [])

/-- A lint rule capability.  Modelled from the spec: a rule "produces
warnings given a file/project view". -/
abbrev Rule := List String → List Warning

/-- A failure to look up configured rule names in the registry. -/
inductive ConfigError where
  | unknownRule (name : String) : ConfigError
deriving DecidableEq, Repr

/-- The `lint` field of a project configuration. -/
structure LintConfig where
  rules : Option (List String)
deriving Repr

/-- A project configuration as read by `updateLinter`. -/
structure ProjectConfig where
  lint : Option LintConfig
deriving Repr

/-- The rule-set computation of `updateLinter` (diagnostics.ts lines
116-126): start from an empty set; if the configuration names rules, look
them up, swallowing a lookup failure and keeping the empty set. -/
def updateLinterRules
    (registry : List String → Except ConfigError (List Rule))
    (projectConfig : ProjectConfig) : List Rule :=
  match projectConfig.lint with
  | none => []
  | some lc =>
    match lc.rules with
    | none => []
    | some names =>
      match registry names with
      | .error _ => []
      | .ok rules => rules

/-- Modelled from the spec: the external `Linter` built by
`new Linter(rules, analyzer)` runs every rule over the files in view and
returns the concatenated warnings. -/
def linterLint (rules : List Rule) (files : List String) : List Warning :=
  (rules.map (fun r => r files)).flatten

/-- The `projectConfigChangeStream` handler (diagnostics.ts lines 45-47
and 116-131): rebuild the rule set (empty on lookup failure), rebuild the
linter, and run a reporting cycle with it.  The modelled linter is total,
so the handler itself never rejects with a configuration error. -/
def onProjectConfigChange (conv toPath : String → String)
    (registry : List String → Except ConfigError (List Rule))
    (projectConfig : ProjectConfig) (packageFiles : List String)
    (analyzeWholePackage : Bool) (openDocs : List String)
    (state : List String) :
    Except LintError (List (String × List Diagnostic) × List String) :=
  let rules := updateLinterRules registry projectConfig
  reportWarnings conv toPath (.ok (linterLint rules packageFiles))
    (fun files => .ok (linterLint rules files)) analyzeWholePackage
    openDocs state

/-! ## Lemmas about batch building and the package diff -/

theorem addToBatch_snd_ne_nil {uri : String} {d : Diagnostic} :
    ∀ {m : List (String × List Diagnostic)}, (∀ p ∈ m, p.2 ≠ []) →
      ∀ p ∈ addToBatch m uri d, p.2 ≠ [] := by
  intro m
  induction m with
  | nil =>
    intro _ p hp
    simp only [addToBatch, List.mem_singleton] at hp
    subst hp; simp
  | cons q rest ih =>
    obtain ⟨k, ds⟩ := q
    intro h p hp
    simp only [addToBatch] at hp
    split at hp
    · rcases List.mem_cons.mp hp with h1 | h2
      · subst h1; simp
      · exact h p (List.mem_cons_of_mem _ h2)
    · rcases List.mem_cons.mp hp with h1 | h2
      · subst h1; exact h (k, ds) (List.mem_cons_self _ _)
      · exact ih (fun q hq => h q (List.mem_cons_of_mem _ hq)) p h2

theorem addToBatch_keys (m : List (String × List Diagnostic)) (uri : String)
    (d : Diagnostic) :
    (addToBatch m uri d).map Prod.fst =
      if uri ∈ m.map Prod.fst then m.map Prod.fst
      else m.map Prod.fst ++ [uri] := by
  induction m with
  | nil => simp [addToBatch]
  | cons q rest ih =>
    obtain ⟨k, ds⟩ := q
    simp only [addToBatch]
    by_cases hk : k = uri
    · subst hk; simp
    · rw [if_neg hk]
      simp only [List.map_cons]
      rw [ih]
      by_cases hm : uri ∈ rest.map Prod.fst
      · rw [if_pos hm, if_pos (by simp [hm])]
      · have huri : uri ∉ k :: rest.map Prod.fst := by
          simp only [List.mem_cons]
          rintro (h | h)
          · exact hk h.symm
          · exact hm h
        rw [if_neg hm, if_neg huri, List.cons_append]

theorem buildBatches_snd_ne_nil (conv : String → String) :
    ∀ (ws : List Warning) (m : List (String × List Diagnostic)),
      (∀ p ∈ m, p.2 ≠ []) → ∀ p ∈ buildBatches conv ws m, p.2 ≠ []
  | [], _, h => h
  | w :: ws, m, h =>
    buildBatches_snd_ne_nil conv ws _ (addToBatch_snd_ne_nil h)

theorem buildBatches_keys_mem (conv : String → String) (u : String) :
    ∀ (ws : List Warning) (m : List (String × List Diagnostic)),
      (u ∈ (buildBatches conv ws m).map Prod.fst ↔
        u ∈ m.map Prod.fst ∨ u ∈ cycleUris conv ws)
  | [], m => by simp [buildBatches, cycleUris]
  | w :: ws, m => by
    simp only [buildBatches]
    rw [buildBatches_keys_mem conv u ws, addToBatch_keys]
    by_cases hm : conv w.sourceRange.file ∈ m.map Prod.fst
    · rw [if_pos hm]
      simp only [cycleUris, List.map_cons, List.mem_cons]
      constructor
      · rintro (h | h)
        · exact Or.inl h
        · exact Or.inr (Or.inr h)
      · rintro (h | h | h)
        · exact Or.inl h
        · exact Or.inl (h ▸ hm)
        · exact Or.inr h
    · rw [if_neg hm]
      simp only [cycleUris, List.map_cons, List.mem_cons, List.mem_append,
        List.mem_singleton]
      tauto

theorem buildBatches_keys_nodup (conv : String → String) :
    ∀ (ws : List Warning) (m : List (String × List Diagnostic)),
      (m.map Prod.fst).Nodup → ((buildBatches conv ws m).map Prod.fst).Nodup
  | [], _, h => h
  | w :: ws, m, h => by
    apply buildBatches_keys_nodup conv ws
    rw [addToBatch_keys]
    by_cases hm : conv w.sourceRange.file ∈ m.map Prod.fst
    · rwa [if_pos hm]
    · rw [if_neg hm]
      refine List.nodup_append.mpr ⟨h, List.nodup_singleton _, ?_⟩
      intro a ha hb
      rw [List.mem_singleton] at hb
      subst hb
      exact hm ha

theorem packageLoop_snd (conv : String → String) :
    ∀ (ws : List Warning) (r : List String)
      (m : List (String × List Diagnostic)),
      (packageLoop conv ws r m).2 = buildBatches conv ws m
  | [], _, _ => rfl
  | w :: ws, r, m => packageLoop_snd conv ws _ _

theorem packageLoop_fst (conv : String → String) :
    ∀ (ws : List Warning) (r : List String)
      (m : List (String × List Diagnostic)),
      (packageLoop conv ws r m).1 =
        r.filter (fun u => decide (u ∉ cycleUris conv ws))
  | [], r, m => by simp [packageLoop, cycleUris]
  | w :: ws, r, m => by
    simp only [packageLoop]
    rw [packageLoop_fst conv ws]
    simp only [setDelete]
    rw [List.filter_filter]
    apply List.filter_congr
    intro u _
    by_cases h1 : u = conv w.sourceRange.file <;>
      by_cases h2 : u ∈ cycleUris conv ws <;>
        simp [cycleUris, h1, h2]

theorem clearCount_append (ps qs : List (String × List Diagnostic))
    (uri : String) :
    clearCount (ps ++ qs) uri = clearCount ps uri + clearCount qs uri :=
  List.countP_append _ _ _

theorem clearCount_eq_zero (ps : List (String × List Diagnostic))
    (uri : String) (h : ∀ p ∈ ps, p.2 ≠ []) : clearCount ps uri = 0 := by
  rw [clearCount, List.countP_eq_zero]
  intro p hp hcon
  rw [Bool.and_eq_true] at hcon
  exact h p hp (List.isEmpty_iff.mp hcon.2)

theorem clearCount_map_clears (l : List String) (uri : String) :
    clearCount (l.map (fun u => (u, ([] : List Diagnostic)))) uri =
      l.count uri := by
  rw [clearCount, List.countP_map, List.count_eq_countP]
  simp [Function.comp_def]

theorem reportPackageWarnings_clearCount (conv : String → String)
    (R : List String) (ws : List Warning) (hR : R.Nodup) (uri : String) :
    clearCount (reportPackageWarnings conv R ws).publishes uri =
      if uri ∈ R ∧ uri ∉ cycleUris conv ws then 1 else 0 := by
  simp only [reportPackageWarnings]
  rw [clearCount_append,
    clearCount_eq_zero _ _
      (by rw [packageLoop_snd]
          exact buildBatches_snd_ne_nil conv ws [] (by simp)),
    clearCount_map_clears, packageLoop_fst, Nat.zero_add]
  by_cases h : uri ∈ R ∧ uri ∉ cycleUris conv ws
  · rw [if_pos h]
    exact List.count_eq_one_of_mem (hR.filter _)
      (List.mem_filter.mpr ⟨h.1, decide_eq_true h.2⟩)
  · rw [if_neg h]
    apply List.count_eq_zero_of_not_mem
    intro hmem
    obtain ⟨hin, hdec⟩ := List.mem_filter.mp hmem
    exact h ⟨hin, of_decide_eq_true hdec⟩

theorem reportPackageWarnings_newState_mem (conv : String → String)
    (R : List String) (ws : List Warning) (uri : String) :
    uri ∈ (reportPackageWarnings conv R ws).newState ↔
      uri ∈ cycleUris conv ws := by
  simp only [reportPackageWarnings]
  rw [packageLoop_snd, buildBatches_keys_mem]
  simp

theorem reportPackageWarnings_newState_nodup (conv : String → String)
    (R : List String) (ws : List Warning) :
    (reportPackageWarnings conv R ws).newState.Nodup := by
  simp only [reportPackageWarnings]
  rw [packageLoop_snd]
  exact buildBatches_keys_nodup conv ws [] (by simp)

/-! ## Claim theorems -/

/-- C1: In a whole-package cycle with previous Reported-State Set `R` and
warning URIs `cycleUris conv ws`, every URI in `R` and not among the
warning URIs gets exactly one empty-diagnostics publish, no other URI gets
a clear, the new Reported-State Set is exactly the warning URIs, and a URI
with warnings in one cycle and none in the next is cleared exactly once
across the two cycles. -/
theorem wholePackage_clear_exactly_once (conv : String → String)
    (R : List String) (ws ws2 : List Warning) (hR : R.Nodup) :
    (∀ uri, uri ∈ R → uri ∉ cycleUris conv ws →
      clearCount (reportPackageWarnings conv R ws).publishes uri = 1) ∧
    (∀ uri, ¬(uri ∈ R ∧ uri ∉ cycleUris conv ws) →
      clearCount (reportPackageWarnings conv R ws).publishes uri = 0) ∧
    (∀ uri, uri ∈ (reportPackageWarnings conv R ws).newState ↔
      uri ∈ cycleUris conv ws) ∧
    (∀ uri, uri ∈ cycleUris conv ws → uri ∉ cycleUris conv ws2 →
      clearCount ((reportPackageWarnings conv R ws).publishes ++
        (reportPackageWarnings conv
          (reportPackageWarnings conv R ws).newState ws2).publishes)
        uri = 1) := by
  refine ⟨?_, ?_, ?_, ?_⟩
  · intro uri h1 h2
    rw [reportPackageWarnings_clearCount conv R ws hR uri, if_pos ⟨h1, h2⟩]
  · intro uri h
    rw [reportPackageWarnings_clearCount conv R ws hR uri, if_neg h]
  · intro uri
    exact reportPackageWarnings_newState_mem conv R ws uri
  · intro uri h1 h2
    rw [clearCount_append,
      reportPackageWarnings_clearCount conv R ws hR uri,
      reportPackageWarnings_clearCount conv _ ws2
        (reportPackageWarnings_newState_nodup conv R ws) uri,
      if_neg (fun hcon => hcon.2 h1),
      if_pos ⟨(reportPackageWarnings_newState_mem conv R ws uri).mpr h1, h2⟩]

/-- A concrete warning in file `u2`, used by witnesses. -/
def witnessWarning : Warning :=
  { code := "rule-x",
    sourceRange := { file := "u2", start := ⟨0, 0⟩, «end» := ⟨0, 1⟩ },
    fix := none, actions := none }

/-- Witness for C1: with previous state `["u1", "u2"]` and one warning in
`u2`, the dropped URI `u1` is cleared exactly once. -/
theorem wholePackage_clear_exactly_once_witness :
    (["u1", "u2"] : List String).Nodup ∧
      clearCount
        (reportPackageWarnings id ["u1", "u2"] [witnessWarning]).publishes
        "u1" = 1 :=
  ⟨by decide,
    (wholePackage_clear_exactly_once id ["u1", "u2"] [witnessWarning] []
      (by decide)).1 "u1" (by decide) (by decide)⟩

/-- C7: In open-documents-only mode, a cycle lints exactly the open
documents (its outcome depends only on the answer of the linter for their
paths), publishes one batch per file with warnings (keys are exactly the
warning URIs, without duplicates), sends no empty-diagnostics publish, and
leaves the Reported-State Set untouched. -/
theorem openMode_cycle (conv toPath : String → String)
    (lintPackage : Except LintError (List Warning))
    (lint : List String → Except LintError (List Warning))
    (openDocs state : List String) (ws : List Warning)
    (h : lint (openDocs.map toPath) = .ok ws) :
    reportWarnings conv toPath lintPackage lint false openDocs state =
      .ok (diagnosticsByUri conv ws, state) ∧
    (∀ p ∈ diagnosticsByUri conv ws, p.2 ≠ []) ∧
    (∀ uri, uri ∈ (diagnosticsByUri conv ws).map Prod.fst ↔
      uri ∈ cycleUris conv ws) ∧
    ((diagnosticsByUri conv ws).map Prod.fst).Nodup ∧
    (∀ lint2 : List String → Except LintError (List Warning),
      lint2 (openDocs.map toPath) = lint (openDocs.map toPath) →
      reportWarnings conv toPath lintPackage lint2 false openDocs state =
        reportWarnings conv toPath lintPackage lint false openDocs state) := by
  refine ⟨?_, ?_, ?_, ?_, ?_⟩
  · simp [reportWarnings, h]
  · exact buildBatches_snd_ne_nil conv ws [] (by simp)
  · intro uri
    rw [diagnosticsByUri, buildBatches_keys_mem]
    simp
  · exact buildBatches_keys_nodup conv ws [] (by simp)
  · intro lint2 h2
    simp [reportWarnings, h2]

/-- Witness for C7: a single open document whose lint pass yields one
warning produces exactly the batch for that file and no state change. -/
theorem openMode_cycle_witness :
    (fun _ : List String =>
        (.ok [witnessWarning] : Except LintError (List Warning)))
        ((["u2"] : List String).map id) = .ok [witnessWarning] ∧
      reportWarnings id id (.ok [])
        (fun _ => .ok [witnessWarning]) false ["u2"] ["s1"] =
        .ok (diagnosticsByUri id [witnessWarning], ["s1"]) :=
  ⟨rfl,
    (openMode_cycle id id (.ok []) (fun _ => .ok [witnessWarning])
      ["u2"] ["s1"] [witnessWarning] rfl).1⟩

/-- C8: On document close, open-documents-only mode publishes exactly one
clear for the URI of the closed document; whole-package mode publishes
nothing. -/
theorem close_clears_only_in_openMode (uri : String) :
    onDidCloseTextDocument false uri = [(uri, ([] : List Diagnostic))] ∧
    clearCount (onDidCloseTextDocument false uri) uri = 1 ∧
    onDidCloseTextDocument true uri = [] := by
  refine ⟨rfl, ?_, rfl⟩
  simp [onDidCloseTextDocument, clearCount, List.countP_cons]

/-- C3: Toggling the analysis mode: into whole-package mode, the
Reported-State Set is replaced by the open document URIs and the ensuing
whole-package cycle diffs against exactly that set; out of whole-package
mode, every URI in the Reported-State Set receives an empty-diagnostics
publish (exactly one each, for a duplicate-free set), followed by a fresh
open-documents cycle. -/
theorem modeToggle_behaviour (conv toPath : String → String)
    (lintPackage : Except LintError (List Warning))
    (lint : List String → Except LintError (List Warning))
    (openDocs : List String) (older newer : Bool) (state : List String)
    (hne : newer ≠ older) :
    (newer = true → ∀ ws, lintPackage = .ok ws →
      onAnalyzeWholePackageToggle conv toPath lintPackage lint openDocs
          older newer state =
        .ok ((reportPackageWarnings conv (jsSetOf openDocs) ws).publishes,
          (reportPackageWarnings conv (jsSetOf openDocs) ws).newState)) ∧
    (newer = false → ∀ ws, lint (openDocs.map toPath) = .ok ws →
      (onAnalyzeWholePackageToggle conv toPath lintPackage lint openDocs
          older newer state =
        .ok (state.map (fun uri => (uri, ([] : List Diagnostic))) ++
          diagnosticsByUri conv ws, state)) ∧
      (state.Nodup → ∀ uri ∈ state,
        clearCount (state.map (fun uri => (uri, ([] : List Diagnostic))))
          uri = 1)) := by
  constructor
  · rintro rfl ws hw
    have holder : older = false := by
      cases older with
      | false => rfl
      | true => exact absurd rfl hne
    subst holder
    simp [onAnalyzeWholePackageToggle, reportWarnings, hw]
  · rintro rfl ws hw
    have holder : older = true := by
      cases older with
      | true => rfl
      | false => exact absurd rfl hne
    subst holder
    refine ⟨?_, ?_⟩
    · simp [onAnalyzeWholePackageToggle, reportWarnings, hw]
    · intro hnd uri hmem
      rw [clearCount_map_clears]
      exact List.count_eq_one_of_mem hnd hmem

/-- Witness for C3: toggling out of whole-package mode with one tracked
URI publishes its clear and then the fresh (empty) open-documents
cycle. -/
theorem modeToggle_behaviour_witness :
    (false ≠ true) ∧
      onAnalyzeWholePackageToggle id id (.ok []) (fun _ => .ok [])
        ["d1"] true false ["s1"] =
        .ok ((["s1"] : List String).map
          (fun uri => (uri, ([] : List Diagnostic))) ++
            diagnosticsByUri id [], ["s1"]) :=
  ⟨by decide,
    ((modeToggle_behaviour id id (.ok []) (fun _ => .ok []) ["d1"] true
      false ["s1"] (by decide)).2 rfl [] rfl).1⟩

/-- C10: Switching out of whole-package mode leaves the Reported-State
Set as it was (the clears are sent but the set is not emptied);
open-documents cycles neither write it (the input state is returned) nor
read it (their publishes do not depend on it); it is overwritten only by
switching into whole-package mode or by a whole-package cycle. -/
theorem reportedSet_openMode_isolation (conv toPath : String → String)
    (lintPackage : Except LintError (List Warning))
    (lint : List String → Except LintError (List Warning))
    (openDocs : List String) (state : List String) :
    (∀ ws, lint (openDocs.map toPath) = .ok ws →
      onAnalyzeWholePackageToggle conv toPath lintPackage lint openDocs
          true false state =
        .ok (state.map (fun uri => (uri, ([] : List Diagnostic))) ++
          diagnosticsByUri conv ws, state)) ∧
    (∀ s1 s2 : List String, ∀ ws, lint (openDocs.map toPath) = .ok ws →
      reportWarnings conv toPath lintPackage lint false openDocs s1 =
        .ok (diagnosticsByUri conv ws, s1) ∧
      (reportWarnings conv toPath lintPackage lint false openDocs
          s1).map Prod.fst =
        (reportWarnings conv toPath lintPackage lint false openDocs
          s2).map Prod.fst) ∧
    (∀ ws, lintPackage = .ok ws →
      onAnalyzeWholePackageToggle conv toPath lintPackage lint openDocs
          false true state =
        .ok ((reportPackageWarnings conv (jsSetOf openDocs) ws).publishes,
          (reportPackageWarnings conv (jsSetOf openDocs) ws).newState) ∧
      reportWarnings conv toPath lintPackage lint true openDocs state =
        .ok ((reportPackageWarnings conv state ws).publishes,
          (reportPackageWarnings conv state ws).newState)) := by
  refine ⟨?_, ?_, ?_⟩
  · intro ws hw
    simp [onAnalyzeWholePackageToggle, reportWarnings, hw]
  · intro s1 s2 ws hw
    constructor
    · simp [reportWarnings, hw]
    · simp only [reportWarnings, hw]
      rfl
  · intro ws hw
    constructor
    · simp [onAnalyzeWholePackageToggle, reportWarnings, hw]
    · simp [reportWarnings, hw]

/-- Witness for C10: with one tracked URI, switching out publishes the
clear and returns the untouched state `["s1"]`. -/
theorem reportedSet_openMode_isolation_witness :
    ((fun _ : List String =>
        (.ok [] : Except LintError (List Warning)))
        ((["d1"] : List String).map id) = .ok []) ∧
      onAnalyzeWholePackageToggle id id (.ok []) (fun _ => .ok [])
        ["d1"] true false ["s1"] =
        .ok ((["s1"] : List String).map
          (fun uri => (uri, ([] : List Diagnostic))) ++
            diagnosticsByUri id [], ["s1"]) :=
  ⟨rfl,
    (reportedSet_openMode_isolation id id (.ok []) (fun _ => .ok [])
      ["d1"] ["s1"]).1 [] rfl⟩

/-- C4: A lint-engine failure propagates as the result of the public
operation that triggered it — a whole-package cycle, an open-documents
cycle, a code-action request, or a fix-apply request — and a failed
whole-package cycle leaves the Reported-State Set exactly as it was. -/
theorem lintFailure_propagates (conv toPath : String → String)
    (lint : List String → Except LintError (List Warning))
    (openDocs state : List String) (e : LintError)
    (req : CodeActionParams) (uri : String)
    (hopen : lint (openDocs.map toPath) = .error e)
    (hreq : lint [toPath req.textDocument] = .error e)
    (hfile : lint [toPath uri] = .error e)
    (hctx : req.context.diagnostics ≠ []) :
    reportWarnings conv toPath (.error e) lint true openDocs state =
      .error e ∧
    stateAfterReportWarnings conv toPath (.error e) lint true openDocs
      state = state ∧
    reportWarnings conv toPath (.error e) lint false openDocs state =
      .error e ∧
    getCodeActions toPath lint req = .error e ∧
    getFixesForFile toPath lint uri = .error e := by
  refine ⟨?_, ?_, ?_, ?_, ?_⟩
  · simp [reportWarnings]
  · simp [stateAfterReportWarnings, reportWarnings]
  · simp [reportWarnings, hopen]
  · have hlen : req.context.diagnostics.length ≠ 0 := by
      simpa [List.length_eq_zero] using hctx
    simp [getCodeActions, hlen, hreq]
  · simp [getFixesForFile, hfile]

/-- A concrete diagnostic used by witnesses. -/
def witnessDiagnostic : Diagnostic :=
  convertWarningToDiagnostic witnessWarning

/-- A concrete code-action request with a non-empty diagnostics context,
used by witnesses. -/
def witnessRequest : CodeActionParams :=
  { textDocument := "u2",
    range := { start := ⟨0, 0⟩, «end» := ⟨0, 5⟩ },
    context := { diagnostics := [witnessDiagnostic] } }

/-- Witness for C4: a linter that always rejects makes every public
operation reject, leaving the state untouched. -/
theorem lintFailure_propagates_witness :
    witnessRequest.context.diagnostics ≠ [] ∧
      getFixesForFile id
        (fun _ => .error (LintError.engineFailure "analysis failed"))
        "u2" = .error (LintError.engineFailure "analysis failed") :=
  ⟨by decide,
    (lintFailure_propagates id id
      (fun _ => .error (LintError.engineFailure "analysis failed"))
      ["d1"] ["s1"] (LintError.engineFailure "analysis failed")
      witnessRequest "u2" rfl rfl rfl (by decide)).2.2.2.2⟩

/-- C9: When looking up the configured rule names fails, `updateLinter`
falls back to an empty rule set, the rebuilt linter produces no warnings
from rules, the reporting cycle still runs (every publish it makes is
empty), and the handler surfaces no error. -/
theorem configError_empty_rules (conv toPath : String → String)
    (registry : List String → Except ConfigError (List Rule))
    (projectConfig : ProjectConfig) (names : List String) (e : ConfigError)
    (packageFiles : List String) (analyzeWholePackage : Bool)
    (openDocs state : List String)
    (hpc : projectConfig.lint = some { rules := some names })
    (hreg : registry names = .error e) :
    updateLinterRules registry projectConfig = [] ∧
    (∀ files, linterLint [] files = []) ∧
    (∃ ps st, onProjectConfigChange conv toPath registry projectConfig
        packageFiles analyzeWholePackage openDocs state = .ok (ps, st) ∧
      ∀ p ∈ ps, p.2 = []) := by
  refine ⟨?_, fun files => rfl, ?_⟩
  · simp [updateLinterRules, hpc, hreg]
  · cases analyzeWholePackage with
    | false =>
      refine ⟨[], state, ?_, by simp⟩
      simp [onProjectConfigChange, reportWarnings, updateLinterRules, hpc,
        hreg, linterLint, diagnosticsByUri, buildBatches]
    | true =>
      refine ⟨state.map (fun uri => (uri, ([] : List Diagnostic))), [],
        ?_, ?_⟩
      · simp [onProjectConfigChange, reportWarnings, updateLinterRules,
          hpc, hreg, linterLint, reportPackageWarnings, packageLoop]
      · intro p hp
        obtain ⟨u, _, rfl⟩ := List.mem_map.mp hp
        rfl

/-- Witness for C9: a registry that rejects the configured rule name
leaves the rule set empty. -/
theorem configError_empty_rules_witness :
    (ProjectConfig.mk (some { rules := some ["bad-rule"] })).lint =
        some { rules := some ["bad-rule"] } ∧
      updateLinterRules
        (fun _ => .error (ConfigError.unknownRule "bad-rule"))
        (ProjectConfig.mk (some { rules := some ["bad-rule"] })) = [] :=
  ⟨rfl,
    (configError_empty_rules id id
      (fun _ => .error (ConfigError.unknownRule "bad-rule"))
      (ProjectConfig.mk (some { rules := some ["bad-rule"] }))
      ["bad-rule"] (ConfigError.unknownRule "bad-rule") [] false [] []
      rfl rfl).1⟩

/-! ## Lemmas about fix application and code actions -/

theorem foldl_append_eq_flatten {α β : Type} (f : α → List β) :
    ∀ (l : List α) (acc : List β),
      l.foldl (fun acc a => acc ++ f a) acc = acc ++ (l.map f).flatten
  | [], acc => by simp
  | a :: l, acc => by
    simp only [List.foldl_cons, List.map_cons, List.flatten_cons]
    rw [foldl_append_eq_flatten f l]
    simp [List.append_assoc]

theorem applyEdits_loop_mem :
    ∀ (edits : List Edit) (acc : List Edit),
      ∀ e ∈ edits.foldl
        (fun acc e => if editConflicts acc e then acc else acc ++ [e]) acc,
        e ∈ acc ∨ e ∈ edits
  | [], _, _, he => Or.inl he
  | ed :: edits, acc, e, he => by
    simp only [List.foldl_cons] at he
    rcases applyEdits_loop_mem edits _ e he with h | h
    · by_cases hc : editConflicts acc ed = true
      · rw [if_pos hc] at h
        exact Or.inl h
      · rw [if_neg hc] at h
        rcases List.mem_append.mp h with h1 | h1
        · exact Or.inl h1
        · rw [List.mem_singleton] at h1
          subst h1
          exact Or.inr (List.mem_cons_self _ _)
    · exact Or.inr (List.mem_cons_of_mem _ h)

theorem applyEdits_subset (edits : List Edit) :
    ∀ e ∈ applyEdits edits, e ∈ edits := by
  intro e he
  rcases applyEdits_loop_mem edits [] e he with h | h
  · cases h
  · exact h

theorem fixesForFileEdits_mem (path : String) (warnings : List Warning)
    (e : Edit) :
    e ∈ fixesForFileEdits path warnings ↔
      ∃ w ∈ warnings, w.fix = some e ∧
        ∀ repl ∈ e, repl.range.file = path := by
  rw [fixesForFileEdits, List.mem_filterMap]
  constructor
  · rintro ⟨w, hw, hf⟩
    refine ⟨w, hw, ?_⟩
    cases hfix : w.fix with
    | none =>
      rw [hfix, Option.none_bind] at hf
      cases hf
    | some f =>
      rw [hfix, Option.some_bind] at hf
      by_cases hany : f.any (fun repl => repl.range.file != path) = true
      · rw [if_pos hany] at hf
        cases hf
      · rw [if_neg hany] at hf
        obtain rfl : f = e := Option.some.inj hf
        refine ⟨rfl, ?_⟩
        intro repl hrepl
        have := List.any_eq_false.mp (Bool.eq_false_iff.mpr hany) repl hrepl
        simpa [bne_iff_ne] using this
  · rintro ⟨w, hw, hfix, hall⟩
    refine ⟨w, hw, ?_⟩
    rw [hfix, Option.some_bind]
    rw [if_neg ?_]
    intro hany
    obtain ⟨repl, hrepl, hne⟩ := List.any_eq_true.mp hany
    exact (bne_iff_ne.mp hne) (hall repl hrepl)

/-- C5: In single-file fix application, a fix is submitted for
application iff it is the fix of some warning all of whose replacements target
the requested file (a fix touching any other file is discarded entirely),
and every returned text edit derives from a replacement of such a
fully-in-file submitted fix. -/
theorem singleFile_fix_scoping (toPath : String → String)
    (lint : List String → Except LintError (List Warning)) (uri : String)
    (ws : List Warning) (h : lint [toPath uri] = .ok ws) :
    (∀ e : Edit, e ∈ fixesForFileEdits (toPath uri) ws ↔
      ∃ w ∈ ws, w.fix = some e ∧
        ∀ repl ∈ e, repl.range.file = toPath uri) ∧
    (∃ tes, getFixesForFile toPath lint uri = .ok tes ∧
      ∀ te ∈ tes, ∃ e ∈ fixesForFileEdits (toPath uri) ws, ∃ repl ∈ e,
        repl.range.file = toPath uri ∧
        te = { range := convertPRangeToL repl.range,
               newText := repl.replacementText }) := by
  refine ⟨fun e => fixesForFileEdits_mem (toPath uri) ws e, ?_⟩
  refine ⟨((applyEdits (fixesForFileEdits (toPath uri) ws)).map
    (fun e => e.map (fun repl =>
      ({ range := convertPRangeToL repl.range,
         newText := repl.replacementText } : TextEdit)))).flatten, ?_, ?_⟩
  · simp only [getFixesForFile, h]
    rw [foldl_append_eq_flatten, List.nil_append]
  · intro te hte
    obtain ⟨l, hl, htel⟩ := List.mem_flatten.mp hte
    obtain ⟨e, he, rfl⟩ := List.mem_map.mp hl
    obtain ⟨repl, hrepl, rfl⟩ := List.mem_map.mp htel
    have hsub : e ∈ fixesForFileEdits (toPath uri) ws :=
      applyEdits_subset _ e he
    obtain ⟨w, _, _, hall⟩ :=
      (fixesForFileEdits_mem (toPath uri) ws e).mp hsub
    exact ⟨e, hsub, repl, hrepl, hall repl hrepl, rfl⟩

/-- A fix whose single replacement stays in file `u2`. -/
def inFileEdit : Edit :=
  [{ range := { file := "u2", start := ⟨0, 0⟩, «end» := ⟨0, 1⟩ },
     replacementText := "x" }]

/-- A fix with one replacement in `u2` and one in `u3`. -/
def crossFileEdit : Edit :=
  [{ range := { file := "u2", start := ⟨1, 0⟩, «end» := ⟨1, 1⟩ },
     replacementText := "y" },
   { range := { file := "u3", start := ⟨0, 0⟩, «end» := ⟨0, 1⟩ },
     replacementText := "z" }]

/-- A warning carrying the in-file fix. -/
def wInFile : Warning :=
  { code := "fixable",
    sourceRange := { file := "u2", start := ⟨0, 0⟩, «end» := ⟨0, 1⟩ },
    fix := some inFileEdit, actions := none }

/-- A warning carrying the cross-file fix. -/
def wCrossFile : Warning :=
  { code := "cross",
    sourceRange := { file := "u2", start := ⟨1, 0⟩, «end» := ⟨1, 1⟩ },
    fix := some crossFileEdit, actions := none }

/-- Witness for C5: with one in-file and one cross-file fix, the
submission criterion is exactly full containment in the requested file. -/
theorem singleFile_fix_scoping_witness :
    ((fun _ : List String =>
        (.ok [wInFile, wCrossFile] : Except LintError (List Warning)))
        [id "u2"] = .ok [wInFile, wCrossFile]) ∧
      (crossFileEdit ∈ fixesForFileEdits (id "u2") [wInFile, wCrossFile] ↔
        ∃ w ∈ [wInFile, wCrossFile], w.fix = some crossFileEdit ∧
          ∀ repl ∈ crossFileEdit, repl.range.file = id "u2") :=
  ⟨rfl,
    (singleFile_fix_scoping id (fun _ => .ok [wInFile, wCrossFile]) "u2"
      [wInFile, wCrossFile] rfl).1 crossFileEdit⟩

theorem posLe_refl (p : Position) : posLe p p = true := by
  simp [posLe]

theorem posLe_eq_false_of_posLt (a b : Position)
    (h : posLt a b = true) : posLe b a = false := by
  simp only [posLt, decide_eq_true_eq] at h
  simp only [posLe, decide_eq_false_iff_not]
  omega

theorem isRangeInside_self (r : SourceRange)
    (h : posLe r.start r.«end» = true) : isRangeInside r r = true := by
  simp [isRangeInside, isPositionInsideRange, posLe_refl, h]

theorem isRangeInside_false_of_end_beyond (inner outer : SourceRange)
    (h : posLt outer.«end» inner.«end» = true) :
    isRangeInside inner outer = false := by
  simp [isRangeInside, isPositionInsideRange,
    posLe_eq_false_of_posLt _ _ h]

theorem isRangeInside_false_of_start_before (inner outer : SourceRange)
    (h : posLt inner.start outer.start = true) :
    isRangeInside inner outer = false := by
  simp [isRangeInside, isPositionInsideRange,
    posLe_eq_false_of_posLt _ _ h]

theorem warningCommands_ne_nil (w : Warning) (rng : SourceRange) :
    warningCommands w rng ≠ [] ↔
      (isRangeInside w.sourceRange rng = true ∧
        (w.fix.isSome = true ∨
          ∃ a ∈ w.actions.getD [], a.kind = "edit")) := by
  unfold warningCommands
  cases hin : isRangeInside w.sourceRange rng with
  | false => simp
  | true =>
    simp only [Bool.not_true, Bool.or_false, true_and]
    cases hfix : w.fix with
    | some f =>
      simp only [Option.isNone_some, Bool.false_and, Bool.false_or,
        Option.isSome_some, if_false]
      simp
    | none =>
      simp only [Option.isNone_none, Bool.true_and, Option.isSome_none,
        Bool.false_eq_true, false_or]
      cases hempty : (w.actions.getD []).isEmpty with
      | true =>
        have hnil : w.actions.getD [] = [] := List.isEmpty_iff.mp hempty
        simp [hnil]
      | false =>
        rw [if_neg (by simp)]
        simp only [List.nil_append, ne_eq, List.filterMap_eq_nil_iff]
        push_neg
        constructor
        · rintro ⟨a, ha, hne⟩
          refine ⟨a, ha, ?_⟩
          by_cases hk : a.kind = "edit"
          · exact hk
          · exact absurd (by rw [if_neg hk]) hne
        · rintro ⟨a, ha, hk⟩
          exact ⟨a, ha, by rw [if_pos hk]; exact Option.some_ne_none _⟩

/-- C6: With a non-empty diagnostics context, `getCodeActions` returns the
per-warning command lists in order, and a warning contributes at least one
command exactly when its source range is inclusively contained in the
requested range and it has a fix or an action of kind "edit"; containment
is inclusive: a well-formed range equal to the requested range qualifies,
while a range whose end lies beyond the requested end or whose start lies
before the requested start does not. -/
theorem codeAction_qualification (toPath : String → String)
    (lint : List String → Except LintError (List Warning))
    (req : CodeActionParams) (ws : List Warning)
    (hctx : req.context.diagnostics ≠ [])
    (h : lint [toPath req.textDocument] = .ok ws) :
    getCodeActions toPath lint req =
      .ok ((ws.map (fun w => warningCommands w
        (convertLRangeToP req.range req.textDocument))).flatten) ∧
    (∀ w ∈ ws,
      warningCommands w (convertLRangeToP req.range req.textDocument)
          ≠ [] ↔
        (isRangeInside w.sourceRange
            (convertLRangeToP req.range req.textDocument) = true ∧
          (w.fix.isSome = true ∨
            ∃ a ∈ w.actions.getD [], a.kind = "edit"))) ∧
    (∀ r : SourceRange, posLe r.start r.«end» = true →
      isRangeInside r r = true) ∧
    (∀ inner outer : SourceRange, posLt outer.«end» inner.«end» = true →
      isRangeInside inner outer = false) ∧
    (∀ inner outer : SourceRange, posLt inner.start outer.start = true →
      isRangeInside inner outer = false) := by
  refine ⟨?_, ?_, isRangeInside_self,
    isRangeInside_false_of_end_beyond,
    isRangeInside_false_of_start_before⟩
  · have hlen : req.context.diagnostics.length ≠ 0 := by
      simpa [List.length_eq_zero] using hctx
    simp only [getCodeActions, hlen, if_false, h]
    rw [foldl_append_eq_flatten, List.nil_append]
  · intro w _
    exact warningCommands_ne_nil w _

/-- Witness for C6: a request over `(0,0)-(0,5)` in `u2` with one
fixable warning at `(0,0)-(0,1)` yields exactly the corresponding quick-fix
command. -/
theorem codeAction_qualification_witness :
    witnessRequest.context.diagnostics ≠ [] ∧
      getCodeActions id (fun _ => .ok [wInFile]) witnessRequest =
        .ok (([wInFile].map (fun w => warningCommands w
          (convertLRangeToP witnessRequest.range
            witnessRequest.textDocument))).flatten) :=
  ⟨by decide,
    (codeAction_qualification id (fun _ => .ok [wInFile]) witnessRequest
      [wInFile] (by decide) rfl).1⟩

end PolymerIde
